import Mathlib

/-!
Shallow embedding of the video-merger backend (src/backend/src/media.js and
src/backend/src/index.js) and proofs of the specified properties.

The filesystem is modelled as a `Finset String` of existing file paths, file
writes are logged as `(path, content)` pairs, and every invocation of the
external media engine (ffprobe / ffmpeg via fluent-ffmpeg) is recorded in a
trace.  The engine itself is an oracle (`Engine`) supplying the probe results
and the success/failure of each encode, concat and mux subprocess.
-/

set_option autoImplicit false

namespace VideoMerger

/-- One stream of a probed media file, as reported by the inspection engine
(`codec_type`, `codec_name`, `width`, `height` fields used by media.js). -/
structure StreamDescriptor where
  codec_type : String
  codec_name : String
  width : Nat
  height : Nat
deriving Repr, DecidableEq

/-- Probe result for one file: the ordered stream list (media.js reads
`metadata.streams`). -/
structure MediaMetadata where
  streams : List StreamDescriptor
deriving Repr, DecidableEq

/-- An uploaded file as multer hands it to the handler: its storage `path`
and its `originalname` display name. -/
structure UploadedFile where
  path : String
  originalname : String
deriving Repr, DecidableEq

/-- `path.join` with the separator used throughout. -/
def pathJoin (a b : String) : String := a ++ "/" ++ b

/-- `const UPLOAD_DIR = path.join(process.cwd(), "uploads")` -/
def UPLOAD_DIR (cwd : String) : String := pathJoin cwd "uploads"

/-- `const OUTPUT_DIR = path.join(process.cwd(), "outputs")` -/
def OUTPUT_DIR (cwd : String) : String := pathJoin cwd "outputs"

/-- `const TEMP_DIR = path.join(process.cwd(), "temp")` -/
def TEMP_DIR (cwd : String) : String := pathJoin cwd "temp"

/-- `const supportedCodecs = ["h264", "hevc", "vp8", "vp9"]` (validateVideos). -/
def supportedVideoCodecs : List String := ["h264", "hevc", "vp8", "vp9"]

/-- `const supportedCodecs = ["aac", "mp3", "opus", "vorbis"]` (validateMusic). -/
def supportedAudioCodecs : List String := ["aac", "mp3", "opus", "vorbis"]

/-- The per-file body of `validateVideos` in media.js: find the first stream
with `codec_type === "video"`, then check codec whitelist, then the
3840x2160 resolution ceiling; the first failing check throws. -/
def validateOneVideo (name : String) (m : MediaMetadata) : Except String Unit :=
  match m.streams.find? (fun s => s.codec_type == "video") with
  | none => .error ("No video stream found in " ++ name)
  | some vs =>
    if ¬ (supportedVideoCodecs.contains vs.codec_name) then
      .error ("Unsupported video codec in " ++ name ++ ". Supported codecs: "
        ++ String.intercalate ", " supportedVideoCodecs)
    else if vs.width > 3840 ∨ vs.height > 2160 then
      .error ("Video resolution too high in " ++ name
        ++ ". Maximum supported: 4K (3840x2160)")
    else
      .ok ()

/-- The body of `validateMusic` in media.js: find the first stream with
`codec_type === "audio"`, then check the audio codec whitelist. -/
def validateOneAudio (name : String) (m : MediaMetadata) : Except String Unit :=
  match m.streams.find? (fun s => s.codec_type == "audio") with
  | none => .error ("No audio stream found in " ++ name)
  | some as_ =>
    if ¬ (supportedAudioCodecs.contains as_.codec_name) then
      .error ("Unsupported audio codec in " ++ name ++ ". Supported codecs: "
        ++ String.intercalate ", " supportedAudioCodecs)
    else
      .ok ()

/-- Oracle for the external media engine: probe results per path and the
outcome of each encode / concat / mux subprocess. -/
structure Engine where
  metadata : String → Except String MediaMetadata
  encode : String → Except String Unit
  concat : Except String Unit
  mux : Except String Unit

/-- `validateVideos` of media.js over the whole batch: probes each file in
submission order (the probed paths are appended to `tr`), stops at the first
failure.  Returns the result together with the final probe trace. -/
def validateVideos (e : Engine) :
    List UploadedFile → List String → Except String Unit × List String
  | [], tr => (.ok (), tr)
  | f :: rest, tr =>
    let tr' := tr ++ [f.path]
    match e.metadata f.path with
    | .error err => (.error err, tr')
    | .ok m =>
      match validateOneVideo f.originalname m with
      | .error msg => (.error msg, tr')
      | .ok _ => validateVideos e rest tr'

/-- `validateMusic` of media.js: probes the music file, then checks the first
audio stream. -/
def validateMusic (e : Engine) (f : UploadedFile) (tr : List String) :
    Except String Unit × List String :=
  let tr' := tr ++ [f.path]
  match e.metadata f.path with
  | .error err => (.error err, tr')
  | .ok m =>
    match validateOneAudio f.originalname m with
    | .error msg => (.error msg, tr')
    | .ok _ => (.ok (), tr')

/-- Output path of the normalize pass for the `i`-th video:
`path.join(TEMP_DIR, "processed_" + i + ".mp4")` in media.js. -/
def processedPath (cwd : String) (i : Nat) : String :=
  pathJoin (TEMP_DIR cwd) ("processed_" ++ toString i ++ ".mp4")

/-- `const listPath = path.join(TEMP_DIR, "filelist.txt")` — the concat manifest. -/
def listPath (cwd : String) : String := pathJoin (TEMP_DIR cwd) "filelist.txt"

/-- `const concatenatedPath = path.join(TEMP_DIR, "concatenated.mp4")`. -/
def concatenatedPath (cwd : String) : String := pathJoin (TEMP_DIR cwd) "concatenated.mp4"

/-- `const outputPath = path.join(OUTPUT_DIR, "merged.mp4")` — the final artifact. -/
def outputPath (cwd : String) : String := pathJoin (OUTPUT_DIR cwd) "merged.mp4"

/-- Output options of `processVideo` (the normalize pass) in media.js. -/
def processOutputOptions : List String :=
  ["-c:v libx264", "-preset medium", "-crf 23", "-movflags +faststart",
   "-pix_fmt yuv420p", "-r 30", "-vsync cfr", "-async 1"]

/-- Input options of the concatenation invocation in media.js. -/
def concatInputOptions : List String := ["-f concat", "-safe 0"]

/-- Output options of the concatenation invocation in media.js. -/
def concatOutputOptions : List String :=
  ["-c:v libx264", "-preset medium", "-crf 23", "-pix_fmt yuv420p",
   "-r 30", "-vsync cfr", "-async 1", "-movflags +faststart"]

/-- Output options of the audio-mux invocation in media.js. -/
def muxOutputOptions : List String :=
  ["-c:v copy", "-c:a aac", "-b:a 192k", "-shortest",
   "-map 0:v:0", "-map 1:a:0", "-movflags +faststart"]

/-- One line of the concat manifest: media.js maps each processed file to
`file '<path>'` (the \x27 escapes are single-quote characters). -/
def fileListLine (p : String) : String := "file \x27" ++ p ++ "\x27"

/-- The concat manifest content: the `file '<path>'` lines joined with
newlines, in the order of `processedVideos`. -/
def fileListContent (processedVideos : List String) : String :=
  String.intercalate "\n" (processedVideos.map fileListLine)

/-- A recorded invocation of the external media engine.  Every invocation
carries the timeout bound it was configured with; media.js never configures
one (fluent-ffmpeg's timeout option is unused), so the embedding of each call
sets it to `none`. -/
inductive EngineCall where
  | probe (path : String) (timeout : Option Nat)
  | encode (input output : String) (outputOptions : List String) (timeout : Option Nat)
  | concat (manifest output : String) (inputOptions outputOptions : List String)
      (timeout : Option Nat)
  | mux (videoInput audioInput output : String) (outputOptions : List String)
      (timeout : Option Nat)
deriving Repr, DecidableEq

/-- The timeout bound an engine invocation was configured with. -/
def EngineCall.timeoutBound : EngineCall → Option Nat
  | .probe _ t => t
  | .encode _ _ _ t => t
  | .concat _ _ _ _ t => t
  | .mux _ _ _ _ t => t

/-- State threaded through a merge run: the set of existing files, the log of
file writes (path, content), and the trace of engine invocations. -/
structure MergeState where
  fs : Finset String
  writes : List (String × String)
  trace : List EngineCall
deriving DecidableEq

/-- `processVideo(inputPath, outputPath)` in media.js: one normalize-encode
invocation; on success the output file exists (an existing file at the same
path is overwritten, not duplicated). -/
def processVideo (e : Engine) (inputPath outputPath : String) (st : MergeState) :
    Except String Unit × MergeState :=
  let st' := { st with
    trace := st.trace ++ [.encode inputPath outputPath processOutputOptions none] }
  match e.encode inputPath with
  | .error err => (.error err, st')
  | .ok _ => (.ok (), { st' with fs := insert outputPath st'.fs })

/-- The normalize loop of `mergeVideosWithMusic`: processes each video in
order, writing `processed_<i>.mp4`, and accumulates `processedVideos`.
`i` is the loop index. -/
def processAll (e : Engine) (cwd : String) :
    List UploadedFile → Nat → MergeState →
    Except String (List String) × MergeState
  | [], _, st => (.ok [], st)
  | v :: rest, i, st =>
    let p := processedPath cwd i
    match processVideo e v.path p st with
    | (.error err, st') => (.error err, st')
    | (.ok _, st') =>
      match processAll e cwd rest (i + 1) st' with
      | (.error err, st'') => (.error err, st'')
      | (.ok ps, st'') => (.ok (p :: ps), st'')

/-- `mergeVideosWithMusic(videoFiles, musicFile)` of media.js, as a state
transformer.  Mirrors the source: validate videos then music (fail-fast),
normalize each video in order, write the concat manifest, concatenate,
mux the music in, then — only on this success path — delete the processed
intermediates, the manifest and the concatenated file.  Any error is wrapped
as `Video merge failed: <message>` by the surrounding catch. -/
def mergeVideosWithMusic (e : Engine) (cwd : String)
    (videoFiles : List UploadedFile) (musicFile : UploadedFile)
    (st : MergeState) : Except String String × MergeState :=
  let vtrace := (validateVideos e videoFiles []).2
  let stv := { st with trace := st.trace ++ vtrace.map (fun p => .probe p none) }
  match (validateVideos e videoFiles []).1 with
  | .error err => (.error ("Video merge failed: " ++ err), stv)
  | .ok _ =>
    let mtrace := (validateMusic e musicFile []).2
    let stm := { stv with trace := stv.trace ++ mtrace.map (fun p => .probe p none) }
    match (validateMusic e musicFile []).1 with
    | .error err => (.error ("Video merge failed: " ++ err), stm)
    | .ok _ =>
      match processAll e cwd videoFiles 0 stm with
      | (.error err, st1) => (.error ("Video merge failed: " ++ err), st1)
      | (.ok processedVideos, st1) =>
        let fileList := fileListContent processedVideos
        let st2 := { st1 with
          fs := insert (listPath cwd) st1.fs
          writes := st1.writes ++ [(listPath cwd, fileList)] }
        let st3 := { st2 with
          trace := st2.trace ++
            [.concat (listPath cwd) (concatenatedPath cwd)
              concatInputOptions concatOutputOptions none] }
        match e.concat with
        | .error err => (.error ("Video merge failed: " ++ err), st3)
        | .ok _ =>
          let st4 := { st3 with fs := insert (concatenatedPath cwd) st3.fs }
          let st5 := { st4 with
            trace := st4.trace ++
              [.mux (concatenatedPath cwd) musicFile.path (outputPath cwd)
                muxOutputOptions none] }
          match e.mux with
          | .error err => (.error ("Video merge failed: " ++ err), st5)
          | .ok _ =>
            let st6 := { st5 with fs := insert (outputPath cwd) st5.fs }
            let cleaned := ((st6.fs \ processedVideos.toFinset).erase (listPath cwd)).erase
              (concatenatedPath cwd)
            (.ok (outputPath cwd), { st6 with fs := cleaned })

/-- A multipart merge request as it reaches the HTTP layer: the files sent in
the `videos` field and the files sent in the `music` field. -/
structure MergeRequest where
  videos : List UploadedFile
  music : List UploadedFile
deriving Repr, DecidableEq

/-- Modelled from the spec: the multipart middleware (multer, an external
library not in this repository) is configured in index.js with
`maxCount: 20` for the `videos` field and `maxCount: 1` for `music`; a
request exceeding a field's maxCount is rejected by the middleware before the
route handler body runs, so no input is probed. -/
def multerAccepts (req : MergeRequest) : Bool :=
  req.videos.length ≤ 20 && req.music.length ≤ 1

/-- The response of the `/merge` route. -/
inductive MergeResponse where
  | rejectedByMiddleware
  | badRequest (msg : String)
  | download (path : String)
  | mergeFailed (msg : String)
deriving Repr, DecidableEq

/-- The `/merge` route of index.js: after the multipart middleware, reject the
request with 400 when no video or no music file was uploaded, otherwise run
`mergeVideosWithMusic`; on success the merged file is sent and the uploaded
inputs are deleted in the download callback, on failure a 500 is returned
(and nothing is deleted). -/
def handleMerge (e : Engine) (cwd : String) (req : MergeRequest)
    (st : MergeState) : MergeResponse × MergeState :=
  if ¬ multerAccepts req then (.rejectedByMiddleware, st)
  else if req.videos.isEmpty then (.badRequest "No video files uploaded", st)
  else
    match req.music with
    | [] => (.badRequest "No music file uploaded", st)
    | mf :: _ =>
      match mergeVideosWithMusic e cwd req.videos mf st with
      | (.error err, st') => (.mergeFailed err, st')
      | (.ok p, st') =>
        let fs' := ((req.videos.map (fun v => v.path)).foldl
          (fun s q => s.erase q) st'.fs).erase mf.path
        (.download p, { st' with fs := fs' })

/-- Modelled from the spec: the external engine's mux mode (§6) combines a
video input of duration `dv` seconds and an audio input of duration `da`;
with the `-shortest` argument the output is truncated to the shorter input
stream (§4.5's shortest-duration mux), without it the output runs to the
longer stream.  Durations are rationals (seconds). -/
def engineMuxDuration (options : List String) (dv da : ℚ) : ℚ :=
  if options.contains "-shortest" then min dv da else max dv da

/-- The list of normalized-intermediate paths a job with `n` videos uses:
`processed_<i>.mp4` for the loop indices `i = 0 .. n-1`. -/
def processedPaths (cwd : String) (n : Nat) : List String :=
  (List.range n).map (processedPath cwd)

/-- Every intermediate path a job with `n` videos touches: the normalized
intermediates, the concat manifest and the concatenated file. -/
def jobIntermediatePaths (cwd : String) (n : Nat) : Finset String :=
  (processedPaths cwd n).toFinset ∪ {listPath cwd, concatenatedPath cwd}

/-! ### Path distinctness -/

theorem string_eq_of_data_eq {a b : String} (h : a.data = b.data) : a = b := by
  cases a; cases b; simp_all

theorem pathJoin_right_inj (base : String) {x y : String}
    (h : pathJoin base x = pathJoin base y) : x = y := by
  have hd := congrArg String.data h
  simp only [pathJoin, String.data_append] at hd
  exact string_eq_of_data_eq (List.append_cancel_left hd)

theorem outDir_ne_tempDir (cwd x y : String) :
    pathJoin (OUTPUT_DIR cwd) x ≠ pathJoin (TEMP_DIR cwd) y := by
  intro h
  have hd := congrArg String.data h
  simp only [pathJoin, OUTPUT_DIR, TEMP_DIR, String.data_append,
    List.append_assoc] at hd
  have h3 := List.append_cancel_left (List.append_cancel_left hd)
  have h4 : (some 'o' : Option Char) = some 't' := congrArg List.head? h3
  exact absurd h4 (by decide)

theorem processedName_ne_filelist (i : Nat) :
    "processed_" ++ toString i ++ ".mp4" ≠ "filelist.txt" := by
  intro h
  have hd := congrArg String.data h
  simp only [String.data_append, List.append_assoc] at hd
  have h4 : (some 'p' : Option Char) = some 'f' := congrArg List.head? hd
  exact absurd h4 (by decide)

theorem processedName_ne_concatenated (i : Nat) :
    "processed_" ++ toString i ++ ".mp4" ≠ "concatenated.mp4" := by
  intro h
  have hd := congrArg String.data h
  simp only [String.data_append, List.append_assoc] at hd
  have h4 : (some 'p' : Option Char) = some 'c' := congrArg List.head? hd
  exact absurd h4 (by decide)

theorem outputPath_ne_processedPath (cwd : String) (i : Nat) :
    outputPath cwd ≠ processedPath cwd i :=
  outDir_ne_tempDir cwd "merged.mp4" ("processed_" ++ toString i ++ ".mp4")

theorem outputPath_ne_listPath (cwd : String) :
    outputPath cwd ≠ listPath cwd :=
  outDir_ne_tempDir cwd "merged.mp4" "filelist.txt"

theorem outputPath_ne_concatenatedPath (cwd : String) :
    outputPath cwd ≠ concatenatedPath cwd :=
  outDir_ne_tempDir cwd "merged.mp4" "concatenated.mp4"

theorem listPath_ne_processedPath (cwd : String) (i : Nat) :
    listPath cwd ≠ processedPath cwd i :=
  fun h => processedName_ne_filelist i (pathJoin_right_inj _ h.symm)

theorem concatenatedPath_ne_processedPath (cwd : String) (i : Nat) :
    concatenatedPath cwd ≠ processedPath cwd i :=
  fun h => processedName_ne_concatenated i (pathJoin_right_inj _ h.symm)

theorem listPath_ne_concatenatedPath (cwd : String) :
    listPath cwd ≠ concatenatedPath cwd := by
  intro h
  have := pathJoin_right_inj _ h
  exact absurd this (by decide)

/-! ### Characterization lemmas -/

theorem validateVideos_trace (e : Engine) (vs : List UploadedFile) :
    ∀ tr : List String,
      (validateVideos e vs tr).2 = tr ++ (validateVideos e vs []).2 ∧
      (validateVideos e vs tr).1 = (validateVideos e vs []).1 := by
  induction vs with
  | nil => intro tr; simp [validateVideos]
  | cons f rest ih =>
    intro tr
    simp only [validateVideos]
    cases hm : e.metadata f.path with
    | error err => simp
    | ok m =>
      cases hv : validateOneVideo f.originalname m with
      | error msg => simp [hv]
      | ok _ =>
        have h1 := ih (tr ++ [f.path])
        have h2 := ih ([] ++ [f.path])
        simp only [List.nil_append] at h2
        simp [hv, h1.1, h1.2, h2.1, h2.2, List.append_assoc]

theorem validateVideos_ok_skip (e : Engine) (pre : List UploadedFile)
    (hpre : ∀ v ∈ pre, ∃ m, e.metadata v.path = .ok m ∧
      validateOneVideo v.originalname m = .ok ()) :
    ∀ (rest : List UploadedFile) (tr : List String),
      validateVideos e (pre ++ rest) tr =
        validateVideos e rest (tr ++ pre.map (fun v => v.path)) := by
  induction pre with
  | nil => intro rest tr; simp
  | cons f tail ih =>
    intro rest tr
    obtain ⟨m, hm, hv⟩ := hpre f (by simp)
    simp only [List.cons_append, validateVideos, hm, hv]
    have := ih (fun v hv' => hpre v (by simp [hv'])) rest (tr ++ [f.path])
    simpa [List.append_assoc] using this

/-- The encode invocations the normalize loop records, for inputs `vs`
starting at index `i`. -/
def encodeCalls (cwd : String) : List UploadedFile → Nat → List EngineCall
  | [], _ => []
  | v :: rest, i =>
    .encode v.path (processedPath cwd i) processOutputOptions none ::
      encodeCalls cwd rest (i + 1)

theorem processAll_ok (e : Engine) (cwd : String) (vs : List UploadedFile)
    (he : ∀ v ∈ vs, e.encode v.path = .ok ()) :
    ∀ (i : Nat) (st : MergeState),
      processAll e cwd vs i st =
        (.ok ((List.range' i vs.length).map (processedPath cwd)),
         { st with
            fs := ((List.range' i vs.length).map (processedPath cwd)).toFinset
              ∪ st.fs,
            trace := st.trace ++ encodeCalls cwd vs i }) := by
  induction vs with
  | nil => intro i st; simp [processAll, encodeCalls, List.range']
  | cons v rest ih =>
    intro i st
    have hv : e.encode v.path = .ok () := he v (by simp)
    have hrest : ∀ w ∈ rest, e.encode w.path = .ok () :=
      fun w hw => he w (by simp [hw])
    simp only [processAll, processVideo, hv, ih hrest, List.length_cons,
      List.range', List.map_cons, encodeCalls]
    have hfs : (List.map (processedPath cwd) (List.range' (i + 1) rest.length)).toFinset
        ∪ insert (processedPath cwd i) st.fs =
        (processedPath cwd i ::
          List.map (processedPath cwd) (List.range' (i + 1) rest.length)).toFinset
          ∪ st.fs := by
      ext p
      simp [Finset.mem_union, Finset.mem_insert, List.mem_toFinset]
    rw [hfs]
    simp [List.append_assoc]

theorem validateVideos_ok_trace (e : Engine) (vs : List UploadedFile) :
    ∀ tr, (validateVideos e vs tr).1 = .ok () →
      (validateVideos e vs tr).2 = tr ++ vs.map (fun v => v.path) := by
  induction vs with
  | nil => intro tr _; simp [validateVideos]
  | cons f rest ih =>
    intro tr h
    simp only [validateVideos] at h ⊢
    cases hm : e.metadata f.path with
    | error err => simp [hm] at h
    | ok m =>
      cases hv : validateOneVideo f.originalname m with
      | error msg => simp [hm, hv] at h
      | ok _ =>
        simp only [hm, hv] at h ⊢
        simpa [List.append_assoc] using ih (tr ++ [f.path]) h

theorem validateMusic_trace (e : Engine) (f : UploadedFile) (tr : List String) :
    (validateMusic e f tr).2 = tr ++ [f.path] := by
  simp only [validateMusic]
  cases hm : e.metadata f.path with
  | error err => simp
  | ok m =>
    cases hv : validateOneAudio f.originalname m with
    | error msg => simp [hv]
    | ok _ => simp [hv]

theorem processedPaths_eq_range' (cwd : String) (n : Nat) :
    processedPaths cwd n = (List.range' 0 n).map (processedPath cwd) := by
  rw [processedPaths, List.range_eq_range']

/-- A fully successful run of `mergeVideosWithMusic`: the result is the final
artifact path, the only write is the concat manifest, the engine is invoked
as probe (videos in order, then music), encode per video, concat, mux, and
the temp intermediates are removed from the filesystem at the end. -/
theorem mergeVideosWithMusic_ok (e : Engine) (cwd : String)
    (vs : List UploadedFile) (mf : UploadedFile) (st : MergeState)
    (hv : (validateVideos e vs []).1 = .ok ())
    (hm : (validateMusic e mf []).1 = .ok ())
    (he : ∀ v ∈ vs, e.encode v.path = .ok ())
    (hc : e.concat = .ok ()) (hx : e.mux = .ok ()) :
    mergeVideosWithMusic e cwd vs mf st =
      (.ok (outputPath cwd),
       { fs := ((insert (outputPath cwd) (insert (concatenatedPath cwd)
             (insert (listPath cwd)
               ((processedPaths cwd vs.length).toFinset ∪ st.fs)))
             \ (processedPaths cwd vs.length).toFinset).erase (listPath cwd)).erase
             (concatenatedPath cwd),
         writes := st.writes ++
           [(listPath cwd, fileListContent (processedPaths cwd vs.length))],
         trace := st.trace
           ++ (vs.map (fun v => v.path)).map (fun p => .probe p none)
           ++ [.probe mf.path none]
           ++ encodeCalls cwd vs 0
           ++ [.concat (listPath cwd) (concatenatedPath cwd)
                 concatInputOptions concatOutputOptions none]
           ++ [.mux (concatenatedPath cwd) mf.path (outputPath cwd)
                 muxOutputOptions none] }) := by
  have hvt : (validateVideos e vs []).2 = vs.map (fun v => v.path) := by
    simpa using validateVideos_ok_trace e vs [] hv
  have hmt : (validateMusic e mf []).2 = [mf.path] := by
    simpa using validateMusic_trace e mf []
  simp only [mergeVideosWithMusic, hvt, hv, hmt, hm,
    processAll_ok e cwd vs he, hc, hx, processedPaths_eq_range']
  simp [List.append_assoc]

/-! ### Concrete test fixtures -/

/-- A well-formed 1080p h264 video stream. -/
def okVideoStream : StreamDescriptor :=
  { codec_type := "video", codec_name := "h264", width := 1920, height := 1080 }

/-- A well-formed aac audio stream. -/
def okAudioStream : StreamDescriptor :=
  { codec_type := "audio", codec_name := "aac", width := 0, height := 0 }

/-- Metadata of a well-formed video file (one video and one audio stream). -/
def okVideoMeta : MediaMetadata := ⟨[okVideoStream, okAudioStream]⟩

/-- Metadata of a well-formed audio file. -/
def okAudioMeta : MediaMetadata := ⟨[okAudioStream]⟩

/-- Metadata of a video using the unsupported vp6 codec. -/
def badCodecMeta : MediaMetadata :=
  ⟨[{ codec_type := "video", codec_name := "vp6", width := 640, height := 480 }]⟩

def fileV0 : UploadedFile := ⟨"uploads/1-a.mp4", "a.mp4"⟩
def fileV1 : UploadedFile := ⟨"uploads/2-b.mp4", "b.mp4"⟩
def fileM : UploadedFile := ⟨"uploads/3-m.mp3", "m.mp3"⟩

/-- An engine on which every invocation succeeds. -/
def okEngine : Engine where
  metadata := fun p => if p = fileM.path then .ok okAudioMeta else .ok okVideoMeta
  encode := fun _ => .ok ()
  concat := .ok ()
  mux := .ok ()

/-- An engine on which only the concatenation subprocess fails. -/
def concatFailEngine : Engine :=
  { okEngine with concat := .error "concat crashed" }

/-- An engine reporting a vp6 video codec for `fileV0`. -/
def badCodecEngine : Engine :=
  { okEngine with
    metadata := fun p =>
      if p = fileV0.path then .ok badCodecMeta
      else if p = fileM.path then .ok okAudioMeta
      else .ok okVideoMeta }

/-- The state before a merge run: the two uploads exist, nothing has been
written, no engine call has been made. -/
def startState : MergeState :=
  ⟨{fileV0.path, fileV1.path, fileM.path}, [], []⟩

/-! ### C5 — resolution ceiling -/

/-- C5: for a video input whose first video stream has a whitelisted codec,
validation fails with the resolution error exactly when the width exceeds
3840 or the height exceeds 2160, and a video at exactly 3840x2160 is
accepted (the boundary is inclusive). -/
theorem resolution_ceiling_inclusive (name : String) (m : MediaMetadata)
    (vs : StreamDescriptor)
    (hfind : m.streams.find? (fun s => s.codec_type == "video") = some vs)
    (hcodec : vs.codec_name ∈ supportedVideoCodecs) :
    (validateOneVideo name m =
        .error ("Video resolution too high in " ++ name
          ++ ". Maximum supported: 4K (3840x2160)")
      ↔ (vs.width > 3840 ∨ vs.height > 2160))
    ∧ (vs.width ≤ 3840 → vs.height ≤ 2160 → validateOneVideo name m = .ok ()) := by
  constructor
  · by_cases hr : 3840 < vs.width ∨ 2160 < vs.height
    · simp [validateOneVideo, hfind, hcodec, hr]
    · simp [validateOneVideo, hfind, hcodec, hr]
  · intro hw hh
    have hr : ¬ (3840 < vs.width ∨ 2160 < vs.height) := by omega
    simp [validateOneVideo, hfind, hcodec, hr]

/-- Witness for C5 at a concrete 3840x2160 video: the boundary resolution is
accepted. -/
theorem resolution_ceiling_inclusive_witness :
    validateOneVideo "uhd.mp4"
      ⟨[{ codec_type := "video", codec_name := "h264",
          width := 3840, height := 2160 }]⟩ = .ok () :=
  (resolution_ceiling_inclusive "uhd.mp4"
    ⟨[{ codec_type := "video", codec_name := "h264",
        width := 3840, height := 2160 }]⟩
    { codec_type := "video", codec_name := "h264", width := 3840, height := 2160 }
    rfl (by decide)).2 (by decide) (by decide)

/-! ### C10 — only the first stream of the required kind is inspected -/

/-- C10: validation looks only at the first stream of the required kind:
its verdict is invariant under any change that preserves the first video
(resp. audio) stream, a video input is accepted exactly when that first
video stream passes the codec whitelist and the resolution ceiling, and an
audio input is accepted exactly when its first audio stream has a
whitelisted codec. -/
theorem validation_first_stream_only :
    (∀ (name : String) (m m' : MediaMetadata),
      m.streams.find? (fun s => s.codec_type == "video") =
        m'.streams.find? (fun s => s.codec_type == "video") →
      validateOneVideo name m = validateOneVideo name m')
    ∧ (∀ (name : String) (m m' : MediaMetadata),
      m.streams.find? (fun s => s.codec_type == "audio") =
        m'.streams.find? (fun s => s.codec_type == "audio") →
      validateOneAudio name m = validateOneAudio name m')
    ∧ (∀ (name : String) (m : MediaMetadata),
      validateOneVideo name m = .ok () ↔
        ∃ vs, m.streams.find? (fun s => s.codec_type == "video") = some vs ∧
          vs.codec_name ∈ supportedVideoCodecs ∧
          vs.width ≤ 3840 ∧ vs.height ≤ 2160)
    ∧ (∀ (name : String) (m : MediaMetadata),
      validateOneAudio name m = .ok () ↔
        ∃ as_, m.streams.find? (fun s => s.codec_type == "audio") = some as_ ∧
          as_.codec_name ∈ supportedAudioCodecs) := by
  refine ⟨?_, ?_, ?_, ?_⟩
  · intro name m m' h
    simp only [validateOneVideo, h]
  · intro name m m' h
    simp only [validateOneAudio, h]
  · intro name m
    cases hf : m.streams.find? (fun s => s.codec_type == "video") with
    | none => simp [validateOneVideo, hf]
    | some vs =>
      by_cases hc : vs.codec_name ∈ supportedVideoCodecs
      · by_cases hr : 3840 < vs.width ∨ 2160 < vs.height
        · simp [validateOneVideo, hf, hc, hr]
          omega
        · simp [validateOneVideo, hf, hc, hr]
          omega
      · simp [validateOneVideo, hf, hc]
  · intro name m
    cases hf : m.streams.find? (fun s => s.codec_type == "audio") with
    | none => simp [validateOneAudio, hf]
    | some as_ =>
      by_cases hc : as_.codec_name ∈ supportedAudioCodecs
      · simp [validateOneAudio, hf, hc]
      · simp [validateOneAudio, hf, hc]

/-- Witness for C10: a file whose first video stream is valid h264 is
accepted even though a later stream uses an unsupported codec at an
excessive resolution. -/
theorem validation_first_stream_only_witness :
    validateOneVideo "mixed.mp4"
      ⟨[okVideoStream,
        { codec_type := "video", codec_name := "vp6",
          width := 9999, height := 9999 }]⟩ = .ok () := by
  have h := (validation_first_stream_only.2.2.1 "mixed.mp4"
    ⟨[okVideoStream,
      { codec_type := "video", codec_name := "vp6",
        width := 9999, height := 9999 }]⟩)
  exact h.mpr ⟨okVideoStream, by decide, by decide, by decide, by decide⟩

/-! ### C7 — deterministic output naming and idempotent re-normalization -/

/-- The output path an engine invocation writes, for encode invocations. -/
def EngineCall.encodeOutput : EngineCall → Option String
  | .encode _ o _ _ => some o
  | _ => none

theorem encodeCalls_outputs (cwd : String) (vs : List UploadedFile) :
    ∀ i : Nat,
      (encodeCalls cwd vs i).filterMap EngineCall.encodeOutput =
        (List.range' i vs.length).map (processedPath cwd) := by
  induction vs with
  | nil => intro i; simp [encodeCalls, List.range']
  | cons v rest ih =>
    intro i
    simp [encodeCalls, EngineCall.encodeOutput, List.range', ih (i + 1)]

/-- C7: the normalize output path is a function of the input's position
alone — two jobs with the same video count produce the same output names,
whatever the inputs are — and re-running the normalize step for the same
index overwrites the previous intermediate instead of adding a file: the
filesystem after the second run equals the filesystem after the first. -/
theorem normalize_naming_positional_idempotent :
    (∀ (cwd : String) (vs vs' : List UploadedFile) (i : Nat),
      vs.length = vs'.length →
      (encodeCalls cwd vs i).filterMap EngineCall.encodeOutput =
        (encodeCalls cwd vs' i).filterMap EngineCall.encodeOutput)
    ∧ (∀ (e : Engine) (cwd : String) (i : Nat) (input : String) (st : MergeState),
      (processVideo e input (processedPath cwd i)
          (processVideo e input (processedPath cwd i) st).2).2.fs =
        (processVideo e input (processedPath cwd i) st).2.fs) := by
  constructor
  · intro cwd vs vs' i hlen
    rw [encodeCalls_outputs, encodeCalls_outputs, hlen]
  · intro e cwd i input st
    cases he : e.encode input with
    | error err => simp [processVideo, he]
    | ok _ => simp [processVideo, he, Finset.insert_idem]

/-- Witness for C7: two different single-video jobs name their intermediate
identically, and a re-run of the normalize step for index 0 leaves the
filesystem unchanged. -/
theorem normalize_naming_positional_idempotent_witness :
    ((encodeCalls "c" [fileV0] 0).filterMap EngineCall.encodeOutput =
      (encodeCalls "c" [fileV1] 0).filterMap EngineCall.encodeOutput)
    ∧ ((processVideo okEngine fileV0.path (processedPath "c" 0)
          (processVideo okEngine fileV0.path (processedPath "c" 0) startState).2).2.fs =
        (processVideo okEngine fileV0.path (processedPath "c" 0) startState).2.fs) :=
  ⟨normalize_naming_positional_idempotent.1 "c" [fileV0] [fileV1] 0 rfl,
   normalize_naming_positional_idempotent.2 okEngine "c" 0 fileV0.path startState⟩

/-! ### C9 — per-invocation timeouts (none exist in the code) -/

theorem processAll_trace_unbounded (e : Engine) (cwd : String)
    (vs : List UploadedFile) :
    ∀ (i : Nat) (st : MergeState) (c : EngineCall),
      c ∈ (processAll e cwd vs i st).2.trace →
      c ∈ st.trace ∨ c.timeoutBound = none := by
  induction vs with
  | nil => intro i st c hc; exact Or.inl hc
  | cons v rest ih =>
    intro i st c hc
    simp only [processAll, processVideo] at hc
    cases he : e.encode v.path with
    | error err =>
      simp only [he] at hc
      simp only [List.mem_append, List.mem_singleton] at hc
      rcases hc with h | h
      · exact Or.inl h
      · subst h; exact Or.inr rfl
    | ok _ =>
      simp only [he] at hc
      rcases hrec : (processAll e cwd rest (i + 1)
          { fs := insert (processedPath cwd i) st.fs, writes := st.writes,
            trace := st.trace ++ [EngineCall.encode v.path (processedPath cwd i)
              processOutputOptions none] }) with ⟨res, st2⟩
      rw [hrec] at hc
      have hc2 : c ∈ st2.trace := by cases res <;> simpa using hc
      rcases ih (i + 1) _ c (by rw [hrec]; exact hc2) with h | h
      · simp only [List.mem_append, List.mem_singleton] at h
        rcases h with h | h
        · exact Or.inl h
        · subst h; exact Or.inr rfl
      · exact Or.inr h

theorem probe_calls_unbounded (ps : List String) (c : EngineCall)
    (hc : c ∈ ps.map (fun p => EngineCall.probe p none)) :
    c.timeoutBound = none := by
  rcases List.mem_map.mp hc with ⟨p, _, rfl⟩
  rfl

/-- Every engine invocation any merge run records carries no timeout bound:
the code never sets one. -/
theorem merge_trace_unbounded (e : Engine) (cwd : String)
    (vs : List UploadedFile) (mf : UploadedFile) (st : MergeState)
    (c : EngineCall)
    (hc : c ∈ (mergeVideosWithMusic e cwd vs mf st).2.trace) :
    c ∈ st.trace ∨ c.timeoutBound = none := by
  simp only [mergeVideosWithMusic] at hc
  cases hv : (validateVideos e vs []).1 with
  | error err =>
    simp only [hv, List.mem_append] at hc
    rcases hc with h | h
    · exact Or.inl h
    · exact Or.inr (probe_calls_unbounded _ _ h)
  | ok _ =>
    simp only [hv] at hc
    cases hm : (validateMusic e mf []).1 with
    | error err =>
      simp only [hm, List.mem_append] at hc
      rcases hc with (h | h) | h
      · exact Or.inl h
      · exact Or.inr (probe_calls_unbounded _ _ h)
      · exact Or.inr (probe_calls_unbounded _ _ h)
    | ok _ =>
      simp only [hm] at hc
      cases hpa : processAll e cwd vs 0
          { st with
            trace := (st.trace ++
                ((validateVideos e vs []).2.map fun p => EngineCall.probe p none)) ++
              ((validateMusic e mf []).2.map fun p => EngineCall.probe p none) } with
      | mk res st1 =>
        have hmem : ∀ d : EngineCall, d ∈ st1.trace →
            d ∈ st.trace ∨ d.timeoutBound = none := by
          intro d hd
          have := processAll_trace_unbounded e cwd vs 0 _ d (by rw [hpa]; exact hd)
          rcases this with h | h
          · simp only [List.mem_append] at h
            rcases h with (h | h) | h
            · exact Or.inl h
            · exact Or.inr (probe_calls_unbounded _ _ h)
            · exact Or.inr (probe_calls_unbounded _ _ h)
          · exact Or.inr h
        cases res with
        | error err =>
          simp only [hpa] at hc
          exact hmem c hc
        | ok processedVideos =>
          simp only [hpa] at hc
          cases hcc : e.concat with
          | error err =>
            simp only [hcc, List.mem_append, List.mem_singleton] at hc
            rcases hc with h | h
            · exact hmem c h
            · subst h; exact Or.inr rfl
          | ok _ =>
            cases hx : e.mux with
            | error err =>
              simp only [hcc, hx, List.mem_append, List.mem_singleton] at hc
              rcases hc with (h | h) | h
              · exact hmem c h
              · subst h; exact Or.inr rfl
              · subst h; exact Or.inr rfl
            | ok _ =>
              simp only [hcc, hx, List.mem_append, List.mem_singleton] at hc
              rcases hc with (h | h) | h
              · exact hmem c h
              · subst h; exact Or.inr rfl
              · subst h; exact Or.inr rfl

/-- Counterexample to C9 as stated: in a fully successful concrete run, not
every engine invocation carries a timeout bound (in fact none does). -/
theorem engine_timeout_counterexample :
    ((mergeVideosWithMusic okEngine "c" [fileV0] fileM startState).2.trace.all
      (fun c => c.timeoutBound.isSome)) = false := by decide

/-- C9 (amended): no invocation of the external media engine is bounded by a
per-invocation timeout — every invocation recorded during any merge run
(starting from an empty invocation trace) has no timeout bound. -/
theorem engine_invocations_unbounded (e : Engine) (cwd : String)
    (vs : List UploadedFile) (mf : UploadedFile) (st : MergeState)
    (hst : st.trace = []) (c : EngineCall)
    (hc : c ∈ (mergeVideosWithMusic e cwd vs mf st).2.trace) :
    c.timeoutBound = none := by
  rcases merge_trace_unbounded e cwd vs mf st c hc with h | h
  · rw [hst] at h; cases h
  · exact h

/-- Witness for C9 (amended): the probe invocation of the concrete run has
no timeout bound. -/
theorem engine_invocations_unbounded_witness :
    EngineCall.timeoutBound (.probe fileV0.path none) = none :=
  engine_invocations_unbounded okEngine "c" [fileV0] fileM startState rfl
    (.probe fileV0.path none) (by decide)

/-! ### C2 — concat manifest order and re-encoding -/

/-- Once validation and all normalizations succeed, the manifest is written
(whatever the concat and mux subprocesses then do) and the concat invocation
is recorded. -/
theorem merge_manifest_and_concat (e : Engine) (cwd : String)
    (vs : List UploadedFile) (mf : UploadedFile) (st : MergeState)
    (hv : (validateVideos e vs []).1 = .ok ())
    (hm : (validateMusic e mf []).1 = .ok ())
    (he : ∀ v ∈ vs, e.encode v.path = .ok ()) :
    ((mergeVideosWithMusic e cwd vs mf st).2.writes =
      st.writes ++ [(listPath cwd, fileListContent (processedPaths cwd vs.length))])
    ∧ (.concat (listPath cwd) (concatenatedPath cwd) concatInputOptions
        concatOutputOptions none ∈ (mergeVideosWithMusic e cwd vs mf st).2.trace) := by
  have hvt : (validateVideos e vs []).2 = vs.map (fun v => v.path) := by
    simpa using validateVideos_ok_trace e vs [] hv
  have hmt : (validateMusic e mf []).2 = [mf.path] := by
    simpa using validateMusic_trace e mf []
  simp only [mergeVideosWithMusic, hvt, hv, hmt, hm,
    processAll_ok e cwd vs he, processedPaths_eq_range']
  cases e.concat with
  | error err => simp
  | ok _ =>
    cases e.mux with
    | error err => simp
    | ok _ => simp

/-- C2: for every non-empty video list the concatenation stage writes a
manifest whose lines are the `file '<path>'` entries for the normalized
intermediates in exactly the submission order, and invokes concat mode with
the canonical (normalizer) profile, re-encoding rather than stream-copying. -/
theorem concat_manifest_order_reencode (e : Engine) (cwd : String)
    (vs : List UploadedFile) (mf : UploadedFile) (st : MergeState)
    (hne : vs ≠ [])
    (hv : (validateVideos e vs []).1 = .ok ())
    (hm : (validateMusic e mf []).1 = .ok ())
    (he : ∀ v ∈ vs, e.encode v.path = .ok ()) :
    ((mergeVideosWithMusic e cwd vs mf st).2.writes =
      st.writes ++ [(listPath cwd,
        String.intercalate "\n"
          (((List.range vs.length).map (processedPath cwd)).map fileListLine))])
    ∧ (.concat (listPath cwd) (concatenatedPath cwd) concatInputOptions
        concatOutputOptions none ∈ (mergeVideosWithMusic e cwd vs mf st).2.trace)
    ∧ "-c:v libx264" ∈ concatOutputOptions
    ∧ "-c:v copy" ∉ concatOutputOptions
    ∧ concatOutputOptions.toFinset = processOutputOptions.toFinset := by
  have h := merge_manifest_and_concat e cwd vs mf st hv hm he
  refine ⟨?_, h.2, by decide, by decide, by decide⟩
  simpa [fileListContent, processedPaths] using h.1

/-- Witness for C2 at a single-video job: the manifest holds exactly the one
`file '<path>'` line and the concat step still runs. -/
theorem concat_manifest_order_reencode_witness :
    ((mergeVideosWithMusic okEngine "c" [fileV0] fileM startState).2.writes =
      startState.writes ++ [(listPath "c",
        String.intercalate "\n"
          (((List.range 1).map (processedPath "c")).map fileListLine))])
    ∧ (.concat (listPath "c") (concatenatedPath "c") concatInputOptions
        concatOutputOptions none
        ∈ (mergeVideosWithMusic okEngine "c" [fileV0] fileM startState).2.trace)
    ∧ "-c:v libx264" ∈ concatOutputOptions
    ∧ "-c:v copy" ∉ concatOutputOptions
    ∧ concatOutputOptions.toFinset = processOutputOptions.toFinset :=
  concat_manifest_order_reencode okEngine "c" [fileV0] fileM startState
    (by decide) rfl rfl (fun _ _ => rfl)

/-! ### C4 — audio muxing: stream-copy video, AAC 192k, shortest duration -/

/-- C4: the mux invocation stream-copies the video (no re-encode), encodes
audio as AAC at 192 kbps, and — via the `-shortest` flag, per the engine's
shortest-duration contract — produces an output lasting the shorter of the
concatenated video and the audio. -/
theorem mux_streamcopy_aac_shortest (e : Engine) (cwd : String)
    (vs : List UploadedFile) (mf : UploadedFile) (st : MergeState)
    (hv : (validateVideos e vs []).1 = .ok ())
    (hm : (validateMusic e mf []).1 = .ok ())
    (he : ∀ v ∈ vs, e.encode v.path = .ok ())
    (hc : e.concat = .ok ()) (hx : e.mux = .ok ()) :
    (.mux (concatenatedPath cwd) mf.path (outputPath cwd) muxOutputOptions none
      ∈ (mergeVideosWithMusic e cwd vs mf st).2.trace)
    ∧ "-c:v copy" ∈ muxOutputOptions
    ∧ "-c:v libx264" ∉ muxOutputOptions
    ∧ "-c:a aac" ∈ muxOutputOptions
    ∧ "-b:a 192k" ∈ muxOutputOptions
    ∧ ∀ dv da : ℚ, engineMuxDuration muxOutputOptions dv da = min dv da := by
  refine ⟨?_, by decide, by decide, by decide, by decide, ?_⟩
  · rw [mergeVideosWithMusic_ok e cwd vs mf st hv hm he hc hx]
    simp
  · intro dv da
    rw [engineMuxDuration, if_pos]
    decide

/-- Witness for C4: the concrete successful run records the mux call, and
for a 5-second video with 4-second audio the output lasts min 5 4 seconds. -/
theorem mux_streamcopy_aac_shortest_witness :
    (.mux (concatenatedPath "c") fileM.path (outputPath "c") muxOutputOptions none
      ∈ (mergeVideosWithMusic okEngine "c" [fileV0] fileM startState).2.trace)
    ∧ engineMuxDuration muxOutputOptions 5 4 = min (5 : ℚ) 4 :=
  ⟨(mux_streamcopy_aac_shortest okEngine "c" [fileV0] fileM startState
      rfl rfl (fun _ _ => rfl) rfl rfl).1,
   (mux_streamcopy_aac_shortest okEngine "c" [fileV0] fileM startState
      rfl rfl (fun _ _ => rfl) rfl rfl).2.2.2.2.2 5 4⟩

/-! ### C6 — accepted jobs have 1..20 videos and exactly one audio input -/

/-- C6: whenever the `/merge` route actually runs the merge (the response is
a download or a merge failure rather than a middleware rejection or a 400),
the job had between 1 and 20 video inputs and exactly one audio input; and a
request with 21 videos is rejected by the upload middleware with the state —
in particular the probe trace — untouched. -/
theorem accepted_job_counts (e : Engine) (cwd : String) (req : MergeRequest)
    (st : MergeState) :
    (((∃ p, (handleMerge e cwd req st).1 = .download p) ∨
      (∃ msg, (handleMerge e cwd req st).1 = .mergeFailed msg)) →
      1 ≤ req.videos.length ∧ req.videos.length ≤ 20 ∧ req.music.length = 1)
    ∧ (req.videos.length = 21 →
        handleMerge e cwd req st = (.rejectedByMiddleware, st)) := by
  constructor
  · intro hacc
    by_cases hmu : multerAccepts req = true
    · have hcounts : req.videos.length ≤ 20 ∧ req.music.length ≤ 1 := by
        simpa [multerAccepts, Bool.and_eq_true, decide_eq_true_eq] using hmu
      by_cases hve : req.videos.isEmpty
      · rcases hacc with ⟨p, hp⟩ | ⟨msg, hmsg⟩
        · simp [handleMerge, hmu, hve] at hp
        · simp [handleMerge, hmu, hve] at hmsg
      · have hlen : 1 ≤ req.videos.length := by
          have hne : req.videos ≠ [] := by simpa [List.isEmpty_iff] using hve
          exact List.length_pos.mpr hne
        cases hmus : req.music with
        | nil =>
          rcases hacc with ⟨p, hp⟩ | ⟨msg, hmsg⟩
          · simp [handleMerge, hmu, hve, hmus] at hp
          · simp [handleMerge, hmu, hve, hmus] at hmsg
        | cons mfirst mrest =>
          refine ⟨hlen, hcounts.1, ?_⟩
          have := hcounts.2
          rw [hmus] at this
          simp only [List.length_cons] at this ⊢
          omega
    · rcases hacc with ⟨p, hp⟩ | ⟨msg, hmsg⟩
      · simp [handleMerge, hmu] at hp
      · simp [handleMerge, hmu] at hmsg
  · intro h21
    have hmu : multerAccepts req = false := by
      simp [multerAccepts, h21]
    simp [handleMerge, hmu]

/-- Witness for C6: a valid 1-video request is accepted with counts in
range, and a 21-video request is rejected with the state untouched. -/
theorem accepted_job_counts_witness :
    (1 ≤ ([fileV0] : List UploadedFile).length ∧
      ([fileV0] : List UploadedFile).length ≤ 20 ∧
      ([fileM] : List UploadedFile).length = 1)
    ∧ handleMerge okEngine "c"
        ⟨List.replicate 21 fileV0, [fileM]⟩ startState =
        (.rejectedByMiddleware, startState) :=
  ⟨(accepted_job_counts okEngine "c" ⟨[fileV0], [fileM]⟩ startState).1
      (Or.inl ⟨outputPath "c", rfl⟩),
   (accepted_job_counts okEngine "c"
      ⟨List.replicate 21 fileV0, [fileM]⟩ startState).2 (by decide)⟩

/-! ### C1 — cleanup of intermediates -/

/-- Counterexample to C1 as stated: when the concat subprocess fails, the
merge returns the wrapped error yet the normalized intermediate and the
manifest both survive in the filesystem, and the uploaded inputs survive as
well — no deletion happens on the failure path. -/
theorem cleanup_unconditional_counterexample :
    (mergeVideosWithMusic concatFailEngine "c" [fileV0] fileM startState).1 =
      .error "Video merge failed: concat crashed"
    ∧ processedPath "c" 0 ∈
        (mergeVideosWithMusic concatFailEngine "c" [fileV0] fileM startState).2.fs
    ∧ listPath "c" ∈
        (mergeVideosWithMusic concatFailEngine "c" [fileV0] fileM startState).2.fs
    ∧ fileV0.path ∈
        (mergeVideosWithMusic concatFailEngine "c" [fileV0] fileM startState).2.fs :=
  ⟨rfl, by decide, by decide, by decide⟩

/-- C1 (amended): cleanup runs only on the success path.  A successful merge
deletes every normalized intermediate, the concat manifest and the
concatenated intermediate, leaving of the job's files exactly the final
artifact plus whatever existed before the run (the uploaded inputs are not
deleted by the merge operation itself; the HTTP layer deletes them after a
successful download). -/
theorem cleanup_on_success (e : Engine) (cwd : String)
    (vs : List UploadedFile) (mf : UploadedFile) (st : MergeState)
    (hv : (validateVideos e vs []).1 = .ok ())
    (hm : (validateMusic e mf []).1 = .ok ())
    (he : ∀ v ∈ vs, e.encode v.path = .ok ())
    (hc : e.concat = .ok ()) (hx : e.mux = .ok ()) :
    (mergeVideosWithMusic e cwd vs mf st).1 = .ok (outputPath cwd)
    ∧ (mergeVideosWithMusic e cwd vs mf st).2.fs =
        insert (outputPath cwd)
          (st.fs \ jobIntermediatePaths cwd vs.length) := by
  rw [mergeVideosWithMusic_ok e cwd vs mf st hv hm he hc hx]
  refine ⟨rfl, ?_⟩
  have hoP : outputPath cwd ∉ processedPaths cwd vs.length := by
    simp only [processedPaths, List.mem_map, List.mem_range, not_exists]
    rintro i ⟨_, h⟩
    exact outputPath_ne_processedPath cwd i h.symm
  have hlP : listPath cwd ∉ processedPaths cwd vs.length := by
    simp only [processedPaths, List.mem_map, List.mem_range, not_exists]
    rintro i ⟨_, h⟩
    exact listPath_ne_processedPath cwd i h.symm
  have hcP : concatenatedPath cwd ∉ processedPaths cwd vs.length := by
    simp only [processedPaths, List.mem_map, List.mem_range, not_exists]
    rintro i ⟨_, h⟩
    exact concatenatedPath_ne_processedPath cwd i h.symm
  have hol : outputPath cwd ≠ listPath cwd := outputPath_ne_listPath cwd
  have hoc : outputPath cwd ≠ concatenatedPath cwd :=
    outputPath_ne_concatenatedPath cwd
  have hlc : listPath cwd ≠ concatenatedPath cwd := listPath_ne_concatenatedPath cwd
  ext p
  simp only [Finset.mem_erase, Finset.mem_sdiff, Finset.mem_insert,
    Finset.mem_union, jobIntermediatePaths, Finset.mem_singleton,
    List.mem_toFinset]
  constructor
  · rintro ⟨hpc, hpl, hmem, hpP⟩
    rcases hmem with rfl | rfl | rfl | hpP' | hfs
    · exact Or.inl rfl
    · exact absurd rfl hpc
    · exact absurd rfl hpl
    · exact absurd hpP' hpP
    · exact Or.inr ⟨hfs, by push_neg; exact ⟨hpP, hpl, hpc⟩⟩
  · rintro (rfl | ⟨hfs, hnot⟩)
    · exact ⟨hoc, hol, Or.inl rfl, hoP⟩
    · push_neg at hnot
      exact ⟨hnot.2.2, hnot.2.1, Or.inr (Or.inr (Or.inr (Or.inr hfs))), hnot.1⟩

/-- Witness for C1 (amended): the concrete successful single-video run ends
with exactly the final artifact added and every intermediate removed. -/
theorem cleanup_on_success_witness :
    (mergeVideosWithMusic okEngine "c" [fileV0] fileM startState).1 =
      .ok (outputPath "c")
    ∧ (mergeVideosWithMusic okEngine "c" [fileV0] fileM startState).2.fs =
        insert (outputPath "c")
          (startState.fs \ jobIntermediatePaths "c" 1) :=
  cleanup_on_success okEngine "c" [fileV0] fileM startState
    rfl rfl (fun _ _ => rfl) rfl rfl

/-! ### C8 — working directories are shared, not per-job -/

/-- Counterexample to C8 as stated: two distinct concrete jobs (different
video lists) both write their manifest at the very same path, both produce
the same final artifact path, and their intermediate path sets are not
disjoint. -/
theorem job_isolation_counterexample :
    ((mergeVideosWithMusic okEngine "c" [fileV0] fileM startState).2.writes.map
        Prod.fst = [listPath "c"])
    ∧ ((mergeVideosWithMusic okEngine "c" [fileV1, fileV0] fileM
        startState).2.writes.map Prod.fst = [listPath "c"])
    ∧ (mergeVideosWithMusic okEngine "c" [fileV0] fileM startState).1 =
        .ok (outputPath "c")
    ∧ (mergeVideosWithMusic okEngine "c" [fileV1, fileV0] fileM startState).1 =
        .ok (outputPath "c")
    ∧ ¬ Disjoint (jobIntermediatePaths "c" 1) (jobIntermediatePaths "c" 2) :=
  ⟨by decide, by decide, rfl, rfl,
   Finset.not_disjoint_iff.mpr ⟨listPath "c", by decide, by decide⟩⟩

/-- C8 (amended): jobs share, rather than exclusively own, their working
paths: the normalize outputs of a run are a function of position and the
process working directory alone, any two jobs' intermediate path sets
overlap (the manifest path is common to all jobs), and any two successful
jobs return the one shared final artifact path. -/
theorem jobs_share_paths :
    (∀ (cwd : String) (vs : List UploadedFile),
      (encodeCalls cwd vs 0).filterMap EngineCall.encodeOutput =
        processedPaths cwd vs.length)
    ∧ (∀ (cwd : String) (n m : Nat),
      ¬ Disjoint (jobIntermediatePaths cwd n) (jobIntermediatePaths cwd m))
    ∧ (∀ (e e' : Engine) (cwd : String) (vs vs' : List UploadedFile)
        (mf mf' : UploadedFile) (st st' : MergeState),
        (validateVideos e vs []).1 = .ok () →
        (validateMusic e mf []).1 = .ok () →
        (∀ v ∈ vs, e.encode v.path = .ok ()) →
        e.concat = .ok () → e.mux = .ok () →
        (validateVideos e' vs' []).1 = .ok () →
        (validateMusic e' mf' []).1 = .ok () →
        (∀ v ∈ vs', e'.encode v.path = .ok ()) →
        e'.concat = .ok () → e'.mux = .ok () →
        (mergeVideosWithMusic e cwd vs mf st).1 =
          (mergeVideosWithMusic e' cwd vs' mf' st').1) := by
  refine ⟨?_, ?_, ?_⟩
  · intro cwd vs
    rw [encodeCalls_outputs, processedPaths_eq_range']
  · intro cwd n m
    refine Finset.not_disjoint_iff.mpr ⟨listPath cwd, ?_, ?_⟩ <;>
      simp [jobIntermediatePaths]
  · intro e e' cwd vs vs' mf mf' st st' hv hm he hc hx hv' hm' he' hc' hx'
    rw [mergeVideosWithMusic_ok e cwd vs mf st hv hm he hc hx,
      mergeVideosWithMusic_ok e' cwd vs' mf' st' hv' hm' he' hc' hx']

/-- Witness for C8 (amended): two concrete successful jobs with different
inputs return the same artifact path. -/
theorem jobs_share_paths_witness :
    (mergeVideosWithMusic okEngine "c" [fileV0] fileM startState).1 =
      (mergeVideosWithMusic okEngine "c" [fileV1, fileV0] fileM startState).1 :=
  jobs_share_paths.2.2 okEngine okEngine "c" [fileV0] [fileV1, fileV0]
    fileM fileM startState startState
    rfl rfl (fun _ _ => rfl) rfl rfl rfl rfl (fun _ _ => rfl) rfl rfl

/-! ### C3 — fail-fast, order-preserving validation -/

theorem validateOneVideo_error_mentions (name : String) (m : MediaMetadata)
    (msg : String) (h : validateOneVideo name m = .error msg) :
    ∃ a b, msg = a ++ name ++ b := by
  simp only [validateOneVideo] at h
  cases hf : m.streams.find? (fun s => s.codec_type == "video") with
  | none =>
    rw [hf] at h
    refine ⟨"No video stream found in ", "", ?_⟩
    simp only [Except.error.injEq] at h
    rw [← h, String.append_empty]
  | some vs =>
    rw [hf] at h
    by_cases hc : vs.codec_name ∈ supportedVideoCodecs
    · by_cases hr : 3840 < vs.width ∨ 2160 < vs.height
      · simp only [hc, hr, if_pos, if_true, not_true, if_neg, if_false,
          not_false_iff, Except.error.injEq] at h
        refine ⟨"Video resolution too high in ",
          ". Maximum supported: 4K (3840x2160)", ?_⟩
        simp_all [String.append_assoc]
      · simp [hc, hr] at h
    · simp only [hc, Except.error.injEq] at h
      refine ⟨"Unsupported video codec in ",
        ". Supported codecs: " ++ String.intercalate ", " supportedVideoCodecs, ?_⟩
      simp_all [String.append_assoc]

theorem validateOneAudio_error_mentions (name : String) (m : MediaMetadata)
    (msg : String) (h : validateOneAudio name m = .error msg) :
    ∃ a b, msg = a ++ name ++ b := by
  simp only [validateOneAudio] at h
  cases hf : m.streams.find? (fun s => s.codec_type == "audio") with
  | none =>
    rw [hf] at h
    refine ⟨"No audio stream found in ", "", ?_⟩
    simp only [Except.error.injEq] at h
    rw [← h, String.append_empty]
  | some as_ =>
    rw [hf] at h
    by_cases hc : as_.codec_name ∈ supportedAudioCodecs
    · simp [hc] at h
    · simp only [hc, Except.error.injEq] at h
      refine ⟨"Unsupported audio codec in ",
        ". Supported codecs: " ++ String.intercalate ", " supportedAudioCodecs, ?_⟩
      simp_all [String.append_assoc]

theorem validateVideos_fail_at (e : Engine) (pre : List UploadedFile)
    (f : UploadedFile) (post : List UploadedFile) (m : MediaMetadata)
    (msg : String)
    (hpre : ∀ v ∈ pre, ∃ mm, e.metadata v.path = .ok mm ∧
      validateOneVideo v.originalname mm = .ok ())
    (hf : e.metadata f.path = .ok m)
    (hfail : validateOneVideo f.originalname m = .error msg) :
    validateVideos e (pre ++ f :: post) [] =
      (.error msg, pre.map (fun v => v.path) ++ [f.path]) := by
  rw [validateVideos_ok_skip e pre hpre (f :: post) []]
  simp [validateVideos, hf, hfail]

/-- C3: validation is fail-fast and order-preserving.  If every video before
position k validates and the one at position k fails a validation check, the
merge aborts with exactly that error, having probed exactly the videos up to
and including position k — no later video and not the audio input — and the
error message embeds the offending input's display name.  If instead all
videos validate and the audio input fails its check, the audio input is
probed last, after every video, and its error (also naming the input) aborts
the job. -/
theorem validation_fail_fast (e : Engine) (cwd : String) (st : MergeState) :
    (∀ (pre : List UploadedFile) (f : UploadedFile) (post : List UploadedFile)
      (mf : UploadedFile) (m : MediaMetadata) (msg : String),
      (∀ v ∈ pre, ∃ mm, e.metadata v.path = .ok mm ∧
        validateOneVideo v.originalname mm = .ok ()) →
      e.metadata f.path = .ok m →
      validateOneVideo f.originalname m = .error msg →
      mergeVideosWithMusic e cwd (pre ++ f :: post) mf st =
        (.error ("Video merge failed: " ++ msg),
         { st with trace := st.trace ++
            ((pre.map (fun v => v.path) ++ [f.path]).map
              (fun p => EngineCall.probe p none)) })
      ∧ ∃ a b, msg = a ++ f.originalname ++ b)
    ∧ (∀ (vs : List UploadedFile) (mf : UploadedFile) (m : MediaMetadata)
      (msg : String),
      (validateVideos e vs []).1 = .ok () →
      e.metadata mf.path = .ok m →
      validateOneAudio mf.originalname m = .error msg →
      mergeVideosWithMusic e cwd vs mf st =
        (.error ("Video merge failed: " ++ msg),
         { st with trace := st.trace ++
            ((vs.map (fun v => v.path) ++ [mf.path]).map
              (fun p => EngineCall.probe p none)) })
      ∧ ∃ a b, msg = a ++ mf.originalname ++ b) := by
  constructor
  · intro pre f post mf m msg hpre hf hfail
    have hV := validateVideos_fail_at e pre f post m msg hpre hf hfail
    refine ⟨?_, validateOneVideo_error_mentions f.originalname m msg hfail⟩
    simp [mergeVideosWithMusic, hV]
  · intro vs mf m msg hv hf hfail
    have hvt : (validateVideos e vs []).2 = vs.map (fun v => v.path) := by
      simpa using validateVideos_ok_trace e vs [] hv
    have hM : validateMusic e mf [] = (.error msg, [mf.path]) := by
      simp [validateMusic, hf, hfail]
    refine ⟨?_, validateOneAudio_error_mentions mf.originalname m msg hfail⟩
    simp [mergeVideosWithMusic, hv, hvt, hM, List.append_assoc]

/-- Witness for C3: with inputs [A (vp6 codec), B (valid)], the job fails
naming A's display name and only A is probed — B and the music are never
probed. -/
theorem validation_fail_fast_witness :
    mergeVideosWithMusic badCodecEngine "c" [fileV0, fileV1] fileM startState =
      (.error ("Video merge failed: " ++
        "Unsupported video codec in a.mp4. Supported codecs: h264, hevc, vp8, vp9"),
       { startState with trace := [.probe fileV0.path none] })
    ∧ ∃ a b, "Unsupported video codec in a.mp4. Supported codecs: h264, hevc, vp8, vp9"
        = a ++ "a.mp4" ++ b := by
  have h := (validation_fail_fast badCodecEngine "c" startState).1
    [] fileV0 [fileV1] fileM badCodecMeta
    "Unsupported video codec in a.mp4. Supported codecs: h264, hevc, vp8, vp9"
    (by simp) rfl rfl
  exact h

end VideoMerger
